import Mathlib

/-!
Verification of the EyeShield patient-record store against its specification.

The development shallowly embeds the record-store logic of
`src/patient_records.py` (class `PatientRecordsPage`), the dashboard
statistics of `src/dashboard.py` (`EyeShieldApp.refresh_dashboard`) and the
screening save path of `src/screening.py` (`ScreeningPage.save_screening`).

Modelling conventions:
* A record (`patient_data` in the source) is a Python list of 14 values that
  are strings or integers; SQLite may in principle surface NULL, and the
  source guards `if val is not None`, so values are modelled by `Val` with a
  `vNone` constructor.
* Python strings are modelled as `String`/`List Char`; `str.strip()` strips
  the ASCII whitespace characters, `str.lower()` lowercases the ASCII
  letters, and `q in s` is substring containment (`subIn`).
* The SQLite table `patient_records` is modelled as a list of records in
  insertion (rowid) order; a `SELECT` without `ORDER BY` on this append-only
  table returns rows in that order.
* An I/O failure of `sqlite3` (connect / execute / commit) is modelled by a
  boolean oracle passed to the operation; the source's `except` handlers
  print and fall through, which the model reflects by returning the state
  unchanged with no error signal.
-/

/-- A single field value of a `patient_data` row: a Python string, a Python
int, or `None`. -/
inductive Val where
  | vStr (s : String)
  | vInt (n : Int)
  | vNone
deriving DecidableEq, Repr

/-- A patient record: the `patient_data` list built in
`ScreeningPage.save_screening` and stored in `PatientRecordsPage._all_records`
(14 fields in declared column order). -/
abbrev Rec := List Val

/-- Python `str(value)`: identity on strings, decimal rendering of ints, and
`"None"` for `None`. -/
def pyStr : Val → String
  | .vStr s => s
  | .vInt n => toString n
  | .vNone => "None"

/-- Field conversion performed by `csv.writer.writerow`: `None` becomes the
empty string, every other value is converted with `str()`. -/
def csvStr : Val → String
  | .vNone => ""
  | v => pyStr v

/-- The ASCII whitespace characters stripped by Python's `str.strip()`. -/
def isSpace (c : Char) : Bool :=
  c = ' ' || c = '\t' || c = '\n' || c = '\r' || c = '\x0b' || c = '\x0c'

/-- ASCII lowercasing of one character, as Python's `str.lower()` acts on the
ASCII range: each of `'A'`–`'Z'` maps to its lowercase form, everything else
is unchanged. -/
def lowChar : Char → Char
  | 'A' => 'a' | 'B' => 'b' | 'C' => 'c' | 'D' => 'd' | 'E' => 'e'
  | 'F' => 'f' | 'G' => 'g' | 'H' => 'h' | 'I' => 'i' | 'J' => 'j'
  | 'K' => 'k' | 'L' => 'l' | 'M' => 'm' | 'N' => 'n' | 'O' => 'o'
  | 'P' => 'p' | 'Q' => 'q' | 'R' => 'r' | 'S' => 's' | 'T' => 't'
  | 'U' => 'u' | 'V' => 'v' | 'W' => 'w' | 'X' => 'x' | 'Y' => 'y'
  | 'Z' => 'z'
  | c => c

/-- Python `s.lower()` on a character list. -/
def lowerL (l : List Char) : List Char := l.map lowChar

/-- Python `s.strip()` on a character list: drop leading and trailing
whitespace. -/
def trimL (l : List Char) : List Char :=
  ((l.dropWhile isSpace).reverse.dropWhile isSpace).reverse

/-- Python's substring containment `q in s`. -/
def subIn : List Char → List Char → Bool
  | q, [] => q.isEmpty
  | q, s@(_ :: rest) => q.isPrefixOf s || subIn q rest

/-- `filter_text` normalisation in `_refresh_table`:
`(filter_text or "").strip().lower()`. -/
def normQuery (q : String) : List Char := lowerL (trimL q.toList)

/-- The text a field is searched in: `str(val).strip().lower()`. -/
def valSearchText (v : Val) : List Char := lowerL (trimL (pyStr v).toList)

/-- One conjunct of the generator in `_refresh_table`:
`filter_text in str(val).strip().lower()` for `val` not `None`. -/
def valMatches (q : List Char) (v : Val) : Bool :=
  match v with
  | .vNone => false
  | v => subIn q (valSearchText v)

/-- `show` for a non-empty query:
`any(filter_text in str(val).strip().lower() for val in patient_data if val is not None)`. -/
def recMatches (q : List Char) (r : Rec) : Bool := r.any (fun v => valMatches q v)

/-- The record-level effect of `_refresh_table(filter_text)` on the visible
rows: a record is shown when the normalised query is empty, or when some
non-`None` field matches.  Display order is the order of `_all_records`. -/
def filterRecords (records : List Rec) (q : String) : List Rec :=
  records.filter (fun pd => (normQuery q).isEmpty || recMatches (normQuery q) pd)

section SubInLemmas

/-- `subIn` decides list infixhood (Python's `in`). -/
theorem subIn_infix_iff (q s : List Char) : subIn q s = true ↔ q <:+: s := by
  induction s with
  | nil =>
      simp [subIn, List.isEmpty_iff, List.infix_nil]
  | cons c rest ih =>
      simp only [subIn, Bool.or_eq_true, List.isPrefixOf_iff_prefix, ih,
        List.infix_cons_iff]

theorem subIn_refl (q : List Char) : subIn q q = true := by
  rw [subIn_infix_iff]

end SubInLemmas

section CharLemmas

theorem lowChar_space {c : Char} (h : isSpace c = true) : lowChar c = c := by
  simp only [isSpace, Bool.or_eq_true, decide_eq_true_eq] at h
  rcases h with ((((h | h) | h) | h) | h) | h <;> subst h <;> decide

theorem lowChar_not_space {c : Char} (h : isSpace c = false) :
    isSpace (lowChar c) = false := by
  unfold lowChar
  split <;> first | decide | exact h

end CharLemmas

section TrimLemmas

theorem head?_dropWhile_not (p : Char → Bool) (l : List Char) {c : Char}
    (h : (l.dropWhile p).head? = some c) : p c = false := by
  induction l with
  | nil => simp at h
  | cons a l ih =>
      rw [List.dropWhile_cons] at h
      by_cases hp : p a = true
      · rw [if_pos hp] at h
        exact ih h
      · rw [if_neg hp] at h
        rw [List.head?_cons, Option.some_inj] at h
        subst h
        simp only [Bool.not_eq_true] at hp
        exact hp

theorem getLast?_dropWhile (p : Char → Bool) (l : List Char)
    (h : l.dropWhile p ≠ []) : (l.dropWhile p).getLast? = l.getLast? := by
  induction l with
  | nil => simp at h
  | cons a l ih =>
      by_cases hp : p a = true
      · have hd : (a :: l).dropWhile p = l.dropWhile p := by
          simp [List.dropWhile_cons, hp]
        rw [hd] at h ⊢
        have hl : l ≠ [] := by
          intro hnil; rw [hnil] at h; simp at h
        rw [ih h]
        cases l with
        | nil => simp at hl
        | cons b m => simp [List.getLast?_cons_cons]
      · simp [List.dropWhile_cons, hp]

theorem trimL_head_not_space {l : List Char} {c : Char}
    (h : (trimL l).head? = some c) : isSpace c = false := by
  unfold trimL at h
  rw [List.head?_reverse] at h
  have hne : (((l.dropWhile isSpace).reverse).dropWhile isSpace) ≠ [] := by
    intro hnil; rw [hnil] at h; simp at h
  rw [getLast?_dropWhile _ _ hne, List.getLast?_reverse] at h
  exact head?_dropWhile_not _ _ h

theorem trimL_getLast_not_space {l : List Char} {c : Char}
    (h : (trimL l).getLast? = some c) : isSpace c = false := by
  unfold trimL at h
  rw [List.getLast?_reverse] at h
  exact head?_dropWhile_not _ _ h

theorem normQuery_head_not_space {q : String} {c : Char}
    (h : (normQuery q).head? = some c) : isSpace c = false := by
  unfold normQuery lowerL at h
  rw [List.head?_map] at h
  cases hh : (trimL q.toList).head? with
  | none => rw [hh] at h; simp at h
  | some c0 =>
      rw [hh] at h
      have h2 : lowChar c0 = c := by simpa using h
      subst h2
      exact lowChar_not_space (trimL_head_not_space hh)

theorem normQuery_getLast_not_space {q : String} {c : Char}
    (h : (normQuery q).getLast? = some c) : isSpace c = false := by
  unfold normQuery lowerL at h
  rw [List.getLast?_map] at h
  cases hh : (trimL q.toList).getLast? with
  | none => rw [hh] at h; simp at h
  | some c0 =>
      rw [hh] at h
      have h2 : lowChar c0 = c := by simpa using h
      subst h2
      exact lowChar_not_space (trimL_getLast_not_space hh)

end TrimLemmas

section InfixTrimLemmas

/-- A query whose first character is not whitespace that occurs in the
lowercased text also occurs after the text's leading whitespace is dropped. -/
theorem infix_lowerL_dropWhile {qt : List Char} (hne : qt ≠ [])
    (hhead : ∀ c, qt.head? = some c → isSpace c = false) :
    ∀ s : List Char, qt <:+: lowerL s → qt <:+: lowerL (s.dropWhile isSpace) := by
  intro s
  induction s with
  | nil =>
      intro h
      simp only [lowerL, List.map_nil, List.infix_nil] at h
      exact absurd h hne
  | cons a s ih =>
      intro h
      by_cases ha : isSpace a = true
      · rw [List.dropWhile_cons, if_pos ha]
        apply ih
        rw [show lowerL (a :: s) = lowChar a :: lowerL s from rfl] at h
        rcases List.infix_cons_iff.mp h with hpre | hinf
        · cases qt with
          | nil => exact absurd rfl hne
          | cons q0 qt' =>
              rcases List.cons_prefix_cons.mp hpre with ⟨hq0, -⟩
              rw [lowChar_space ha] at hq0
              have := hhead q0 rfl
              rw [hq0, ha] at this
              exact absurd this (by simp)
        · exact hinf
      · rw [List.dropWhile_cons, if_neg ha]
        exact h

/-- Strengthening to both ends: a trimmed-style query occurring in the
lowercased text also occurs in the lowercased stripped text. -/
theorem infix_lowerL_trimL {qt s : List Char} (hne : qt ≠ [])
    (hhead : ∀ c, qt.head? = some c → isSpace c = false)
    (hlast : ∀ c, qt.getLast? = some c → isSpace c = false)
    (h : qt <:+: lowerL s) : qt <:+: lowerL (trimL s) := by
  have step1 : qt <:+: lowerL (s.dropWhile isSpace) :=
    infix_lowerL_dropWhile hne hhead s h
  have hrev : qt.reverse <:+: (lowerL (s.dropWhile isSpace)).reverse :=
    step1.reverse
  rw [show (lowerL (s.dropWhile isSpace)).reverse
        = lowerL (s.dropWhile isSpace).reverse from (List.map_reverse _ _).symm] at hrev
  have hrevne : qt.reverse ≠ [] := by
    intro hx
    exact hne (by simpa using congrArg List.reverse hx)
  have hrevhead : ∀ c, qt.reverse.head? = some c → isSpace c = false := by
    intro c hc
    rw [List.head?_reverse] at hc
    exact hlast c hc
  have step2 : qt.reverse <:+: lowerL (((s.dropWhile isSpace).reverse).dropWhile isSpace) :=
    infix_lowerL_dropWhile hrevne hrevhead _ hrev
  have step3 : qt.reverse.reverse <:+:
      (lowerL (((s.dropWhile isSpace).reverse).dropWhile isSpace)).reverse :=
    step2.reverse
  rw [List.reverse_reverse] at step3
  rw [show (lowerL (((s.dropWhile isSpace).reverse).dropWhile isSpace)).reverse
        = lowerL ((((s.dropWhile isSpace).reverse).dropWhile isSpace)).reverse from
      (List.map_reverse _ _).symm] at step3
  exact step3

/-- The stripped text is an infix of the original text. -/
theorem trimL_infix_self (l : List Char) : trimL l <:+: l := by
  have h1 : ((l.dropWhile isSpace).reverse.dropWhile isSpace) <:+
      (l.dropWhile isSpace).reverse := List.dropWhile_suffix _
  have h2 : trimL l <+: ((l.dropWhile isSpace).reverse).reverse := by
    unfold trimL
    exact h1.reverse
  rw [List.reverse_reverse] at h2
  exact h2.isInfix.trans (List.dropWhile_suffix _).isInfix

/-- Occurrence in the lowercased stripped text implies occurrence in the
lowercased original text. -/
theorem infix_lowerL_of_trimL {qt s : List Char}
    (h : qt <:+: lowerL (trimL s)) : qt <:+: lowerL s :=
  h.trans ((trimL_infix_self s).map lowChar)

end InfixTrimLemmas

section FilterCharacterization

/-- The matching rule as the specification words it: the normalised query is
a substring of the lowercased, *unstripped* `str(val)` of a non-null field. -/
def claimValMatches (q : List Char) (v : Val) : Bool :=
  match v with
  | .vNone => false
  | v => subIn q (lowerL (pyStr v).toList)

/-- The filter as the specification words it: keep, in view order, the
records with a non-null field whose stringified value contains the trimmed,
case-folded query; an empty normalised query keeps everything. -/
def claimFilter (records : List Rec) (q : String) : List Rec :=
  records.filter (fun pd => (normQuery q).isEmpty || pd.any (fun v => claimValMatches (normQuery q) v))

theorem subIn_nil_left (s : List Char) : subIn [] s = true := by
  cases s <;> simp [subIn, List.isPrefixOf]

/-- Because the normalised query starts and ends with non-whitespace,
stripping the searched value does not change whether the query occurs. -/
theorem subIn_trim_eq (q : String) (s : List Char) :
    subIn (normQuery q) (lowerL (trimL s)) = subIn (normQuery q) (lowerL s) := by
  by_cases hne : normQuery q = []
  · rw [hne, subIn_nil_left, subIn_nil_left]
  · rw [Bool.eq_iff_iff, subIn_infix_iff, subIn_infix_iff]
    constructor
    · exact infix_lowerL_of_trimL
    · exact infix_lowerL_trimL hne
        (fun c hc => normQuery_head_not_space hc)
        (fun c hc => normQuery_getLast_not_space hc)

theorem valMatches_eq_claim (q : String) (v : Val) :
    valMatches (normQuery q) v = claimValMatches (normQuery q) v := by
  cases v with
  | vNone => rfl
  | vStr s => exact subIn_trim_eq q _
  | vInt n => exact subIn_trim_eq q _

/-- The implemented filter agrees with the specification's description of
it, record for record and in order. -/
theorem filterRecords_eq_claimFilter (records : List Rec) (q : String) :
    filterRecords records q = claimFilter records q := by
  unfold filterRecords claimFilter recMatches
  have hf : (fun v => valMatches (normQuery q) v)
      = (fun v => claimValMatches (normQuery q) v) :=
    funext (fun v => valMatches_eq_claim q v)
  rw [hf]

/-- Searching for the text of one of a record's own non-null fields finds
the record. -/
theorem mem_filterRecords_self {view : List Rec} {r : Rec} (hr : r ∈ view)
    {v : Val} (hv : v ∈ r) (hvn : v ≠ Val.vNone) :
    r ∈ filterRecords view (pyStr v) := by
  unfold filterRecords
  rw [List.mem_filter]
  refine ⟨hr, ?_⟩
  rw [Bool.or_eq_true]
  by_cases he : (normQuery (pyStr v)).isEmpty = true
  · exact Or.inl he
  · refine Or.inr ?_
    have hm : valMatches (normQuery (pyStr v)) v = true := by
      cases v with
      | vNone => exact absurd rfl hvn
      | vStr s => exact subIn_refl _
      | vInt n => exact subIn_refl _
    unfold recMatches
    rw [List.any_eq_true]
    exact ⟨v, hv, hm⟩

/-- An empty (or all-whitespace) query keeps every record. -/
theorem filterRecords_empty_query {q : String} (h : trimL q.toList = [])
    (records : List Rec) : filterRecords records q = records := by
  unfold filterRecords
  have he : (normQuery q).isEmpty = true := by
    unfold normQuery lowerL
    rw [h]
    rfl
  simp [he]

end FilterCharacterization

section DemoRecords

/-- The first record of the specification's concrete scenario
(`ES-20250101-0001`, Jane Doe, result `No DR Detected`). -/
def jane : Rec :=
  [.vStr "ES-20250101-0001", .vStr "Jane Doe", .vStr "1980-05-14", .vInt 45,
   .vStr "Female", .vStr "09171234567", .vStr "Both Eyes", .vStr "Type 2",
   .vInt 10, .vStr "7.5%", .vStr "No", .vStr "", .vStr "No DR Detected",
   .vStr "Confidence: 93.8%"]

/-- The second record of the specification's concrete scenario
(`ES-20250101-0002`, John Roe, result `Mild DR`). -/
def john : Rec :=
  [.vStr "ES-20250101-0002", .vStr "John Roe", .vStr "1975-03-02", .vInt 50,
   .vStr "Male", .vStr "09179876543", .vStr "Left Eye", .vStr "Type 1",
   .vInt 12, .vStr "8.0%", .vStr "Yes", .vStr "", .vStr "Mild DR",
   .vStr "Confidence: 93.8%"]

/-- A record like `jane` whose `notes` column was read back from SQLite as
NULL (`None`). -/
def janeNullNotes : Rec :=
  [.vStr "ES-20250101-0001", .vStr "Jane Doe", .vStr "1980-05-14", .vInt 45,
   .vStr "Female", .vStr "09171234567", .vStr "Both Eyes", .vStr "Type 2",
   .vInt 10, .vStr "7.5%", .vStr "No", .vNone, .vStr "No DR Detected",
   .vStr "Confidence: 93.8%"]

end DemoRecords

/-- C4 counterexample: the claim promises that for *any* field value `V` of a
record `R` in the view, `filter(V)` includes `R`.  For a record whose `notes`
field is NULL the query is `str(None) = "None"`, the null field itself is
excluded from matching, and no other field contains `"none"`, so the record
is not returned. -/
theorem c4_counterexample :
    janeNullNotes ∈ ([janeNullNotes] : List Rec) ∧
    Val.vNone ∈ janeNullNotes ∧
    janeNullNotes ∉ filterRecords [janeNullNotes] (pyStr Val.vNone) := by
  decide

/-- C4 (amended): `filter(query)` returns exactly the records, in view order,
for which the trimmed case-folded query is a substring of the case-folded
stringified value of at least one non-null field; an empty or whitespace-only
query returns every record; and for every record `R` in the view and any
**non-null** field value `V` of `R`, `filter(str(V))` includes `R`. -/
theorem c4_filter_spec (view : List Rec) (q : String) :
    filterRecords view q = claimFilter view q
    ∧ (trimL q.toList = [] → filterRecords view q = view)
    ∧ (∀ r ∈ view, ∀ v ∈ r, v ≠ Val.vNone → r ∈ filterRecords view (pyStr v)) :=
  ⟨filterRecords_eq_claimFilter view q,
   fun h => filterRecords_empty_query h view,
   fun _r hr _v hv hvn => mem_filterRecords_self hr hv hvn⟩

/-- Witness for `c4_filter_spec` at a concrete view and query, discharging
the inner hypotheses. -/
theorem c4_filter_spec_witness :
    filterRecords [jane, john] "  JANE " = claimFilter [jane, john] "  JANE "
    ∧ filterRecords [jane, john] " " = [jane, john]
    ∧ jane ∈ filterRecords [jane, john] (pyStr (Val.vStr "Jane Doe")) :=
  ⟨(c4_filter_spec [jane, john] "  JANE ").1,
   (c4_filter_spec [jane, john] " ").2.1 (by decide),
   (c4_filter_spec [jane, john] (pyStr (Val.vStr "Jane Doe"))).2.2 jane
     (by decide) (Val.vStr "Jane Doe") (by decide) (by decide)⟩

section StoreModel

/-- A table row as displayed: `QTableWidgetItem(str(value))` per cell. -/
def rowStrings (r : Rec) : List String := r.map pyStr

/-- The state of `PatientRecordsPage` together with the durable SQLite
table: `db` is the `patient_records` table in rowid (insertion) order,
`view` is `self._all_records`, and `table` holds the rows currently shown in
`self.patient_table` (one list of cell texts per visible row). -/
structure AppState where
  db : List Rec
  view : List Rec
  table : List (List String)
deriving DecidableEq, Repr

/-- `_refresh_table(filter_text)`: clear the table and re-insert the rows of
`_all_records` that match the filter, each cell text `str(value)`. -/
def refreshTable (st : AppState) (q : String) : AppState :=
  { st with table := (filterRecords st.view q).map rowStrings }

/-- `save_record_to_db(patient_data)`: on success the row is inserted and
committed; on any exception the handler prints and returns, leaving the
database unchanged and giving the caller no error signal. -/
def save_record_to_db (st : AppState) (r : Rec) (writeOk : Bool) : AppState :=
  if writeOk then { st with db := st.db ++ [r] } else st

/-- `add_patient_record(patient_data)`: append to `_all_records` first, then
attempt the durable write, then `_refresh_table()` with the default empty
filter. -/
def add_patient_record (st : AppState) (r : Rec) (writeOk : Bool) : AppState :=
  refreshTable (save_record_to_db { st with view := st.view ++ [r] } r writeOk) ""

/-- `load_records_from_db()`: on success replace `_all_records` with every
stored row in storage order and refresh the table; on any exception the
handler prints and returns, leaving `_all_records` and the table unchanged
and giving the caller no error signal. -/
def load_records_from_db (st : AppState) (readOk : Bool) : AppState :=
  if readOk then refreshTable { st with view := st.db } "" else st

/-- `PatientRecordsPage.__init__` over an existing database: `_all_records`
is set to `[]` and then `load_records_from_db()` runs once. -/
def initPage (db : List Rec) (readOk : Bool) : AppState :=
  load_records_from_db { db := db, view := [], table := [] } readOk

/-- The user-reachable operations on the page after construction: a screening
save (`add_patient_record`, with the durable write possibly failing), a
search-box change (`filter_table`), and a CSV export (which does not modify
the page state).  `load_records_from_db` is invoked only by `__init__`. -/
inductive UserOp where
  | add (r : Rec) (writeOk : Bool)
  | search (q : String)
  | exportOp
deriving DecidableEq, Repr

def applyOp (st : AppState) : UserOp → AppState
  | .add r writeOk => add_patient_record st r writeOk
  | .search q => refreshTable st q
  | .exportOp => st

def applyOps (st : AppState) (ops : List UserOp) : AppState :=
  ops.foldl applyOp st

/-- Fold of successful appends, as a run of the screening workflow. -/
def addAll (st : AppState) (rs : List Rec) : AppState :=
  rs.foldl (fun s r => add_patient_record s r true) st

end StoreModel

section StoreLemmas

theorem refreshTable_view (st : AppState) (q : String) :
    (refreshTable st q).view = st.view := rfl

theorem add_view (st : AppState) (r : Rec) (writeOk : Bool) :
    (add_patient_record st r writeOk).view = st.view ++ [r] := by
  unfold add_patient_record save_record_to_db
  cases writeOk <;> rfl

theorem add_db_ok (st : AppState) (r : Rec) :
    (add_patient_record st r true).db = st.db ++ [r] := rfl

theorem add_db_fail (st : AppState) (r : Rec) :
    (add_patient_record st r false).db = st.db := rfl

theorem addAll_db (rs : List Rec) (st : AppState) :
    (addAll st rs).db = st.db ++ rs := by
  induction rs generalizing st with
  | nil => simp [addAll]
  | cons r rs ih =>
      show (addAll (add_patient_record st r true) rs).db = st.db ++ (r :: rs)
      rw [ih, add_db_ok]
      simp

theorem load_view_ok (st : AppState) :
    (load_records_from_db st true).view = st.db := rfl

theorem initPage_view (db : List Rec) : (initPage db true).view = db := rfl

end StoreLemmas

/-- C1 (code bug): the source appends to `_all_records` *before* attempting
the durable write, and `save_record_to_db` swallows the exception, so after a
failed write the record is visible in the view and in `filter` results while
absent from durable storage — the claim's ordering and no-partial-visibility
guarantees are violated. -/
theorem c1_failed_write_visible :
    jane ∈ (add_patient_record (initPage [] true) jane false).view
    ∧ jane ∈ filterRecords (add_patient_record (initPage [] true) jane false).view ""
    ∧ rowStrings jane ∈ (add_patient_record (initPage [] true) jane false).table
    ∧ (add_patient_record (initPage [] true) jane false).db = [] := by
  decide

/-- C2 (code bug): a failed durable write is indistinguishable, in every
piece of state the caller can observe (`_all_records`, the table), from a
successful one — `save_record_to_db` prints and returns with no error
result — and a failed `load_records_from_db` likewise returns normally,
leaving the previous view in place with no signal. -/
theorem c2_errors_swallowed :
    (add_patient_record (initPage [] true) jane false).view
      = (add_patient_record (initPage [] true) jane true).view
    ∧ (add_patient_record (initPage [] true) jane false).table
      = (add_patient_record (initPage [] true) jane true).table
    ∧ (add_patient_record (initPage [] true) jane false).db
      ≠ (add_patient_record (initPage [] true) jane true).db
    ∧ (initPage [jane] false).view = []
    ∧ (load_records_from_db (initPage [jane] true) false).view = [jane] := by
  decide

/-- C3: every sequence of successful appends leaves the database holding
exactly those records in append order, so a fresh page construction
(`load_records_from_db` at `__init__`) returns them field for field in
order; and a successful load always replaces the in-memory view with the
stored rows in storage order. -/
theorem c3_durability_roundtrip (rs : List Rec) (st : AppState) :
    (initPage (addAll (initPage [] true) rs).db true).view = rs
    ∧ (load_records_from_db st true).view = st.db := by
  constructor
  · rw [initPage_view, addAll_db]
    rfl
  · exact load_view_ok st

theorem applyOp_view_extends (st : AppState) (op : UserOp) :
    ∃ d, (applyOp st op).view = st.view ++ d := by
  cases op with
  | add r writeOk => exact ⟨[r], add_view st r writeOk⟩
  | search q => exact ⟨[], by simp [applyOp, refreshTable_view]⟩
  | exportOp => exact ⟨[], by simp [applyOp]⟩

theorem applyOps_view_extends (ops : List UserOp) :
    ∀ st : AppState, ∃ d, (applyOps st ops).view = st.view ++ d := by
  induction ops with
  | nil => intro st; exact ⟨[], by simp [applyOps]⟩
  | cons op ops ih =>
      intro st
      obtain ⟨d2, h2⟩ := ih (applyOp st op)
      obtain ⟨d1, h1⟩ := applyOp_view_extends st op
      refine ⟨d1 ++ d2, ?_⟩
      show (applyOps (applyOp st op) ops).view = _
      rw [h2, h1, List.append_assoc]

/-- C9: after construction, the only state-changing page operations are
`add_patient_record`, `filter_table` and `export_to_csv`
(`load_records_from_db` runs only in `__init__`).  Every append extends
`_all_records` by exactly the new record at the end — even when the durable
write fails — and every operation sequence leaves the previous view as an
unchanged prefix: nothing is removed or mutated. -/
theorem c9_append_only (st : AppState) (ops : List UserOp) (r : Rec)
    (writeOk : Bool) :
    (add_patient_record st r writeOk).view = st.view ++ [r]
    ∧ ∃ d, (applyOps st ops).view = st.view ++ d :=
  ⟨add_view st r writeOk, applyOps_view_extends ops st⟩

section DashboardModel

/-- The per-row test of `refresh_dashboard`:
`item and 'dr' in item.text().lower()` at `results_idx = 12`
(a missing cell — `table.item(r, 12) is None` — counts as no match). -/
def rowHasDR (row : List String) : Bool :=
  match row[12]? with
  | some t => subIn ['d', 'r'] (lowerL t.toList)
  | none => false

/-- The `dr_count` accumulation loop of `refresh_dashboard` over the visible
table rows. -/
def drCountTable : List (List String) → Nat
  | [] => 0
  | row :: rest => (if rowHasDR row then 1 else 0) + drCountTable rest

/-- One recent-activity line: `f"{pid} — {name} — {result}"` with empty
fall-backs for missing cells. -/
def fmtRecent (row : List String) : String :=
  (row[0]?).getD "" ++ " — " ++ (row[1]?).getD "" ++ " — " ++ (row[12]?).getD ""

/-- The recent-activity loop: rows `total-1` down to `max(-1, total-6)+1`,
i.e. the last (up to) five visible rows, most recent first. -/
def recentTable (table : List (List String)) : List String :=
  (table.reverse.take 5).map fmtRecent

/-- The values computed by `EyeShieldApp.refresh_dashboard` from the patient
table: today's screenings, total patients, images processed (all set to the
visible row count), the DR-positive count, and the recent-activity lines. -/
structure DashStats where
  todays : Nat
  total : Nat
  images : Nat
  drCount : Nat
  recent : List String
deriving DecidableEq, Repr

/-- `refresh_dashboard`, as a function of the rows currently displayed in
`patient_records_page.patient_table`. -/
def refresh_dashboard (table : List (List String)) : DashStats :=
  { todays := table.length
    total := table.length
    images := table.length
    drCount := drCountTable table
    recent := recentTable table }

/-- The page state after appending the two scenario records (both durable
writes succeed). -/
def demoBoth : AppState :=
  applyOps (initPage [] true) [.add jane true, .add john true]

/-- `demoBoth` after the user types `jane` in the search box: the table
shows only the matching row while `_all_records` still holds both. -/
def demoFiltered : AppState := refreshTable demoBoth "jane"

end DashboardModel

section DashboardLemmas

theorem drCountTable_eq_filter (table : List (List String)) :
    drCountTable table = (table.filter rowHasDR).length := by
  induction table with
  | nil => rfl
  | cons row rest ih =>
      rw [show drCountTable (row :: rest)
            = (if rowHasDR row then 1 else 0) + drCountTable rest from rfl]
      rw [List.filter_cons, ih]
      by_cases h : rowHasDR row = true
      · simp [h, Nat.add_comm]
      · simp [h]

/-- The row-level DR test, pushed back from cell texts to the record. -/
theorem rowHasDR_rowStrings (r : Rec) :
    rowHasDR (rowStrings r)
      = match r[12]? with
        | some v => subIn ['d', 'r'] (lowerL (pyStr v).toList)
        | none => false := by
  unfold rowHasDR rowStrings
  rw [List.getElem?_map]
  cases r[12]? <;> rfl

end DashboardLemmas

/-- C7 counterexample: `refresh_dashboard` reads `patient_table`, which holds
the *filtered* rows.  After the user types `jane` with two records in the
view, the "Total Patients" statistic is 1 while the live view holds 2
records, so the statistics are not projections of the full view. -/
theorem c7_counterexample :
    (refresh_dashboard demoFiltered.table).total = 1
    ∧ demoFiltered.view.length = 2 := by
  decide

/-- C7 (amended): on every call the statistics are recomputed, with no
caching, from the rows currently displayed in the table (the result of the
last filter, not necessarily the full view): the total equals the displayed
row count, the DR-positive count counts displayed records whose `result`
column (index 12) contains the case-insensitive substring `dr`, and the
recent-activity lines are the last five displayed rows, most recent
first. -/
theorem c7_stats_spec (st : AppState) (q : String) :
    (refresh_dashboard (refreshTable st q).table).total
        = (filterRecords st.view q).length
    ∧ (refresh_dashboard (refreshTable st q).table).drCount
        = ((filterRecords st.view q).filter (fun r =>
            match r[12]? with
            | some v => subIn ['d', 'r'] (lowerL (pyStr v).toList)
            | none => false)).length
    ∧ (refresh_dashboard (refreshTable st q).table).recent
        = ((((filterRecords st.view q).map rowStrings).rtake 5).reverse).map fmtRecent := by
  refine ⟨?_, ?_, ?_⟩
  · show ((filterRecords st.view q).map rowStrings).length = _
    rw [List.length_map]
  · show drCountTable ((filterRecords st.view q).map rowStrings) = _
    rw [drCountTable_eq_filter, List.filter_map, List.length_map]
    congr 1
    apply List.filter_congr
    intro r _
    simpa [Function.comp] using rowHasDR_rowStrings r
  · show recentTable ((filterRecords st.view q).map rowStrings) = _
    unfold recentTable
    rw [List.rtake_eq_reverse_take_reverse, List.reverse_reverse]

/-- C8 counterexample: in the two-record scenario the DR-positive statistic
is 2, not 1, because the substring test `'dr' in result.lower()` also counts
the negative phrasing `No DR Detected`. -/
theorem c8_counterexample :
    ¬(filterRecords demoBoth.view "dr" = [jane, john]
      ∧ filterRecords demoBoth.view "jane" = [jane]
      ∧ (refresh_dashboard demoBoth.table).drCount = 1) := by
  decide

/-- C8 (amended): in the two-record scenario, `filter("dr")` returns both
records, `filter("jane")` returns only the first, and the DR-positive count
equals 2 (the substring rule counts `No DR Detected` as well as
`Mild DR`). -/
theorem c8_scenario :
    filterRecords demoBoth.view "dr" = [jane, john]
    ∧ filterRecords demoBoth.view "jane" = [jane]
    ∧ (refresh_dashboard demoBoth.table).drCount = 2 := by
  decide

section CsvModel

/-- `csv.writer` (default dialect, QUOTE_MINIMAL): a field needs quoting iff
it contains the delimiter, the quotechar, or a line-terminator character. -/
def needsQuote (s : List Char) : Bool :=
  s.any (fun c => c = ',' || c = '"' || c = '\r' || c = '\n')

/-- Double every quotechar inside a quoted field. -/
def escapeQ : List Char → List Char
  | [] => []
  | c :: rest => if c = '"' then '"' :: '"' :: escapeQ rest else c :: escapeQ rest

/-- Serialize one field under QUOTE_MINIMAL. -/
def renderField (s : List Char) : List Char :=
  if needsQuote s then '"' :: (escapeQ s ++ ['"']) else s

/-- Join the serialized fields of a row with the `,` delimiter. -/
def joinComma : List (List Char) → List Char
  | [] => []
  | [f] => renderField f
  | f :: fs => renderField f ++ ',' :: joinComma fs

/-- `writer.writerow`: the joined fields followed by the default line
terminator `\r\n`. -/
def renderRow (r : List (List Char)) : List Char := joinComma r ++ ['\r', '\n']

/-- The full text written by consecutive `writerow` calls. -/
def renderCSV : List (List (List Char)) → List Char
  | [] => []
  | r :: rows => renderRow r ++ renderCSV rows

/-- Re-parser, quoted-field body: consume up to the closing quotechar,
undoubling escaped quotechars; `none` on an unterminated quote. -/
def parseQ : List Char → Option (List Char × List Char)
  | [] => none
  | c :: rest =>
    if c = '"' then
      match rest with
      | c2 :: rest2 =>
        if c2 = '"' then
          match parseQ rest2 with
          | some (f, r) => some ('"' :: f, r)
          | none => none
        else some ([], rest)
      | [] => some ([], [])
    else
      match parseQ rest with
      | some (f, r) => some (c :: f, r)
      | none => none

/-- Re-parser, unquoted field: consume up to the delimiter or the line
terminator. -/
def parseU : List Char → List Char × List Char
  | [] => ([], [])
  | c :: rest =>
    if c = ',' || c = '\r' then ([], c :: rest)
    else
      let p := parseU rest
      (c :: p.1, p.2)

/-- Re-parser, one field: quoted if it starts with the quotechar. -/
def parseField (s : List Char) : Option (List Char × List Char) :=
  match s with
  | c :: _ => if c = '"' then parseQ s.tail else some (parseU s)
  | [] => some (parseU s)

/-- Re-parser, one record: fields separated by `,`, terminated by `\r\n`.
The fuel bounds the number of fields. -/
def parseFieldsAux : Nat → List Char → Option (List (List Char) × List Char)
  | 0, _ => none
  | fuel + 1, s =>
    match parseField s with
    | none => none
    | some (f, rest) =>
      match rest with
      | c :: rest2 =>
        if c = ',' then
          match parseFieldsAux fuel rest2 with
          | some (fs, r) => some (f :: fs, r)
          | none => none
        else if c = '\r' then
          match rest2 with
          | c2 :: rest3 => if c2 = '\n' then some ([f], rest3) else none
          | [] => none
        else none
      | [] => none

/-- Re-parser, all records of the text. -/
def parseRowsAux : Nat → List Char → Option (List (List (List Char)))
  | _, [] => some []
  | 0, _ => none
  | fuel + 1, s =>
    match parseFieldsAux (s.length + 1) s with
    | some (r, rest) =>
      match parseRowsAux fuel rest with
      | some rs => some (r :: rs)
      | none => none
    | none => none

/-- Parse a complete delimited text back into records of fields. -/
def parseCSV (s : List Char) : Option (List (List (List Char))) :=
  parseRowsAux (s.length + 1) s

end CsvModel


section CsvRoundTrip

theorem needsQuote_cons_false {a : Char} {f : List Char}
    (h : needsQuote (a :: f) = false) :
    (a = ',' || a = '"' || a = '\r' || a = '\n') = false
    ∧ needsQuote f = false := by
  unfold needsQuote at h ⊢
  rw [List.any_cons, Bool.or_eq_false_iff] at h
  exact h

theorem needsQuote_head {a : Char} {f : List Char}
    (h : needsQuote (a :: f) = false) :
    a ≠ ',' ∧ a ≠ '"' ∧ a ≠ '\r' ∧ a ≠ '\n' ∧ needsQuote f = false := by
  obtain ⟨hhead, htail⟩ := needsQuote_cons_false h
  refine ⟨?_, ?_, ?_, ?_, htail⟩ <;>
    (intro hx; subst hx; simp at hhead)

theorem parseU_render : ∀ (f : List Char), needsQuote f = false →
    ∀ {rest : List Char},
    (rest.head? = some ',' ∨ rest.head? = some '\r') →
    parseU (f ++ rest) = (f, rest) := by
  intro f
  induction f with
  | nil =>
      intro _ rest hr
      rw [List.nil_append]
      cases rest with
      | nil => rcases hr with h | h <;> simp at h
      | cons c r' =>
          have hc : (c = ',' || c = '\r') = true := by
            rcases hr with h | h <;>
              (rw [List.head?_cons, Option.some_inj] at h; subst h; simp)
          simp [parseU, hc]
  | cons a f' ih =>
      intro hq rest hr
      obtain ⟨h1, h2, h3, h4, hq'⟩ := needsQuote_head hq
      have ha2 : (a = ',' || a = '\r') = false := by
        simp [h1, h3]
      rw [List.cons_append]
      simp only [parseU, ha2, Bool.false_eq_true, if_false]
      rw [ih hq' hr]

theorem parseQ_render : ∀ (f : List Char), ∀ {rest : List Char},
    rest.head? ≠ some '"' →
    parseQ (escapeQ f ++ '"' :: rest) = some (f, rest) := by
  intro f
  induction f with
  | nil =>
      intro rest hr
      show parseQ ('"' :: rest) = some ([], rest)
      cases rest with
      | nil => rfl
      | cons c2 r2 =>
          have hc2 : ¬(c2 = '"') := by
            intro h
            subst h
            exact hr rfl
          simp [parseQ, hc2]
  | cons a f' ih =>
      intro rest hr
      by_cases ha : a = '"'
      · subst ha
        show parseQ ('"' :: '"' :: (escapeQ f' ++ '"' :: rest)) = _
        simp [parseQ, ih hr]
      · have he : escapeQ (a :: f') = a :: escapeQ f' := by
          simp [escapeQ, ha]
        rw [he, List.cons_append, parseQ.eq_def]
        simp only [if_neg ha]
        rw [ih hr]

theorem parseField_render (f rest : List Char)
    (hr : rest.head? = some ',' ∨ rest.head? = some '\r') :
    parseField (renderField f ++ rest) = some (f, rest) := by
  by_cases hq : needsQuote f = true
  · rw [renderField, if_pos hq]
    have hr' : rest.head? ≠ some '"' := by
      rcases hr with h | h <;> (rw [h]; intro hx; simp at hx)
    rw [List.cons_append]
    show parseQ ((escapeQ f ++ ['"']) ++ rest) = _
    rw [List.append_assoc, List.singleton_append]
    exact parseQ_render f hr'
  · have hq' : needsQuote f = false := by simpa using hq
    rw [renderField, if_neg hq]
    cases f with
    | nil =>
        rw [List.nil_append]
        cases rest with
        | nil => rcases hr with h | h <;> simp at h
        | cons c r' =>
            have hc : ¬(c = '"') := by
              rcases hr with h | h <;>
                (rw [List.head?_cons, Option.some_inj] at h; subst h; decide)
            have hcr : (c = ',' || c = '\r') = true := by
              rcases hr with h | h <;>
                (rw [List.head?_cons, Option.some_inj] at h; subst h; simp)
            simp [parseField, hc, parseU, hcr]
    | cons a f' =>
        obtain ⟨h1, h2, h3, h4, -⟩ := needsQuote_head hq'
        rw [List.cons_append]
        simp only [parseField, List.tail_cons, if_neg h2]
        rw [← List.cons_append, parseU_render (a :: f') hq' hr]

end CsvRoundTrip

section CsvRoundTripRows

theorem joinComma_length :
    ∀ r : List (List Char), r.length ≤ (joinComma r).length + 1 := by
  intro r
  induction r with
  | nil => simp [joinComma]
  | cons f fs ih =>
      cases fs with
      | nil => simp [joinComma]
      | cons f1 fs' =>
          rw [show joinComma (f :: f1 :: fs')
                = renderField f ++ ',' :: joinComma (f1 :: fs') from rfl]
          simp only [List.length_cons, List.length_append] at ih ⊢
          omega

theorem renderRow_length (r : List (List Char)) :
    r.length ≤ (renderRow r).length := by
  unfold renderRow
  rw [List.length_append]
  have := joinComma_length r
  simp only [List.length_cons, List.length_nil]
  omega

theorem renderRow_ne_nil (r : List (List Char)) : renderRow r ≠ [] := by
  unfold renderRow
  intro h
  have := congrArg List.length h
  rw [List.length_append] at this
  simp at this

theorem parseFieldsAux_render : ∀ (r : List (List Char)), r ≠ [] →
    ∀ (fuel : Nat), r.length ≤ fuel → ∀ (rest : List Char),
    parseFieldsAux fuel (renderRow r ++ rest) = some (r, rest) := by
  intro r
  induction r with
  | nil => intro h; exact absurd rfl h
  | cons f fs ih =>
      intro _ fuel hfuel rest
      cases fuel with
      | zero => simp at hfuel
      | succ k =>
          cases fs with
          | nil =>
              have hrw : renderRow [f] ++ rest
                  = renderField f ++ ('\r' :: '\n' :: rest) := by
                simp [renderRow, joinComma]
              rw [hrw]
              simp only [parseFieldsAux]
              rw [parseField_render f ('\r' :: '\n' :: rest) (Or.inr rfl)]
              simp
          | cons f1 fs' =>
              have hrw : renderRow (f :: f1 :: fs') ++ rest
                  = renderField f ++ (',' :: (renderRow (f1 :: fs') ++ rest)) := by
                simp [renderRow, joinComma]
              rw [hrw]
              simp only [parseFieldsAux]
              rw [parseField_render f (',' :: (renderRow (f1 :: fs') ++ rest))
                    (Or.inl rfl)]
              have hk : (f1 :: fs').length ≤ k := by
                simp only [List.length_cons] at hfuel ⊢
                omega
              show (match parseFieldsAux k (renderRow (f1 :: fs') ++ rest) with
                    | some (fs2, r2) => some (f :: fs2, r2)
                    | none => none) = some (f :: f1 :: fs', rest)
              rw [ih (by simp) k hk rest]

end CsvRoundTripRows

section CsvRoundTripTop

theorem renderCSV_length :
    ∀ rows : List (List (List Char)), rows.length ≤ (renderCSV rows).length := by
  intro rows
  induction rows with
  | nil => simp [renderCSV]
  | cons r rs ih =>
      show (r :: rs).length ≤ (renderRow r ++ renderCSV rs).length
      rw [List.length_append]
      have h1 : 1 ≤ (renderRow r).length := by
        unfold renderRow
        rw [List.length_append]
        simp
      simp only [List.length_cons]
      omega

theorem parseRowsAux_render :
    ∀ rows : List (List (List Char)), (∀ r ∈ rows, r ≠ []) →
    ∀ fuel : Nat, rows.length ≤ fuel →
    parseRowsAux fuel (renderCSV rows) = some rows := by
  intro rows
  induction rows with
  | nil =>
      intro _ fuel _
      show parseRowsAux fuel [] = some []
      cases fuel <;> rfl
  | cons r rs ih =>
      intro hne fuel hfuel
      cases fuel with
      | zero => simp at hfuel
      | succ k =>
          show parseRowsAux (k + 1) (renderRow r ++ renderCSV rs) = _
          obtain ⟨c, cs, hcs⟩ :
              ∃ c cs, renderRow r ++ renderCSV rs = c :: cs := by
            cases hx : renderRow r ++ renderCSV rs with
            | nil =>
                exact absurd (List.append_eq_nil.mp hx).1 (renderRow_ne_nil r)
            | cons c cs => exact ⟨c, cs, rfl⟩
          rw [hcs]
          simp only [parseRowsAux]
          rw [← hcs]
          have hrlen : r.length ≤ (renderRow r ++ renderCSV rs).length + 1 := by
            have := renderRow_length r
            rw [List.length_append]
            omega
          rw [parseFieldsAux_render r (hne r (by simp))
                ((renderRow r ++ renderCSV rs).length + 1) hrlen (renderCSV rs)]
          show (match parseRowsAux k (renderCSV rs) with
                | some rs2 => some (r :: rs2)
                | none => none) = some (r :: rs)
          rw [ih (fun x hx => hne x (by simp [hx])) k (by
                simp only [List.length_cons] at hfuel
                omega)]

theorem parseCSV_render (rows : List (List (List Char)))
    (h : ∀ r ∈ rows, r ≠ []) : parseCSV (renderCSV rows) = some rows := by
  unfold parseCSV
  exact parseRowsAux_render rows h _ (by
    have := renderCSV_length rows
    omega)

end CsvRoundTripTop

section ExportModel

/-- The column labels of `patient_table`, as set by
`setHorizontalHeaderLabels`; `export_to_csv` writes
`[self.patient_table.horizontalHeaderItem(i).text() for i in range(14)]` as
its header row. -/
def headerLabels : List String :=
  ["Patient ID", "Name", "Birthdate", "Age", "Sex", "Contact", "Eye(s)",
   "Diabetes Type", "Duration (yrs)", "HbA1c", "Prev Treatment", "Notes",
   "Result", "Confidence"]

def headerChars : List (List Char) := headerLabels.map String.toList

/-- One data row as `writer.writerow(row)` serialises it: each field
converted by the `csv` module (`None` to empty, `str()` otherwise). -/
def csvRow (r : Rec) : List (List Char) := r.map (fun v => (csvStr v).toList)

/-- The text `export_to_csv` writes for a given record list: the header row,
then one `writerow` per record. -/
def exportRecords (records : List Rec) : List Char :=
  renderCSV (headerChars :: records.map csvRow)

/-- `PatientRecordsPage.export_to_csv`: serialises
`records = getattr(self, '_all_records', [])` — the full in-memory list,
independent of the current search filter. -/
def export_to_csv (st : AppState) : List Char := exportRecords st.view

/-- Modelled from the spec: the export §2/§6 describe for the
records-browser flow — a header row of the exact §3 field names and one line
per record of the *current filtered view* (the rows on display).  This
definition follows the specification's words and exists only to be compared
with `export_to_csv`. -/
def specFieldNames : List (List Char) :=
  (["patient_id", "name", "birthdate", "age", "sex", "contact", "eye",
    "diabetes_type", "duration_years", "hba1c", "prev_treatment", "notes",
    "result", "confidence"]).map String.toList

/-- Modelled from the spec: serialisation of the current filtered view under
the §3 header (see `specFieldNames`). -/
def specExportOfView (st : AppState) : List Char :=
  renderCSV (specFieldNames :: st.table.map (fun row => row.map String.toList))

end ExportModel

section ExportLemmas

theorem exportRecords_parse (records : List Rec)
    (h : ∀ r ∈ records, r ≠ []) :
    parseCSV (exportRecords records)
      = some (headerChars :: records.map csvRow) := by
  apply parseCSV_render
  intro r hr
  rcases List.mem_cons.mp hr with hr | hr
  · subst hr; decide
  · obtain ⟨r0, hr0, hrr⟩ := List.mem_map.mp hr
    subst hrr
    intro hx
    exact h r0 hr0 (List.map_eq_nil_iff.mp hx)

end ExportLemmas

set_option maxRecDepth 8000

/-- C5 counterexample: with two records in the view and the search filter
`jane` active (one visible row), the code's export neither uses the §3 field
names as header nor serialises the filtered view: the produced text differs
from the spec-modelled export, and it contains a header plus two data rows
while the filtered table shows one row. -/
theorem c5_counterexample :
    export_to_csv demoFiltered ≠ specExportOfView demoFiltered
    ∧ (parseCSV (export_to_csv demoFiltered)).map List.length = some 3
    ∧ demoFiltered.table.length = 1 := by
  decide

/-- C5 (amended): the export writes a fixed header row of the records
table's display column labels (`Patient ID`, …, `Confidence`) and then
serialises the *full* in-memory record list — independent of the current
filter — one record per line, fields in the declared order. -/
theorem c5_export_spec (st : AppState) (q : String)
    (h : ∀ r ∈ st.view, r ≠ []) :
    export_to_csv (refreshTable st q) = export_to_csv st
    ∧ parseCSV (export_to_csv st) = some (headerChars :: st.view.map csvRow) :=
  ⟨rfl, exportRecords_parse st.view h⟩

/-- Witness for `c5_export_spec` on the two-record state with an active
filter. -/
theorem c5_export_spec_witness :
    export_to_csv (refreshTable demoBoth "jane") = export_to_csv demoBoth
    ∧ parseCSV (export_to_csv demoBoth)
        = some (headerChars :: demoBoth.view.map csvRow) :=
  c5_export_spec demoBoth "jane" (by decide)

/-- A record exercising every quoting case of the delimited format: embedded
delimiters, line breaks (both kinds), quotechars, a NULL and a negative
integer. -/
def tricky : Rec :=
  [.vStr "a,b", .vStr "line1\nline2", .vStr "say \"hi\"", .vStr "cr\r\nlf",
   .vNone, .vInt (-3), .vStr ""]

/-- C6: exporting any record sequence and re-parsing the produced delimited
text yields the header row and the records field for field (each field in
its serialised string form), including records with embedded delimiter,
quote and newline characters.  The only proviso is that every record has at
least one field (every real record has 14). -/
theorem c6_export_roundtrip (records : List Rec)
    (h : ∀ r ∈ records, r ≠ []) :
    parseCSV (exportRecords records)
      = some (headerChars :: records.map csvRow) :=
  exportRecords_parse records h

/-- Witness for `c6_export_roundtrip` on a record containing delimiter,
quote and newline characters. -/
theorem c6_export_roundtrip_witness :
    parseCSV (exportRecords [tricky, jane])
      = some (headerChars :: [tricky, jane].map csvRow) :=
  c6_export_roundtrip [tricky, jane] (by decide)

section ScreeningModel

/-- Python `s.strip()` on a `String`. -/
def pyStrip (s : String) : String := (trimL s.toList).asString

/-- The widget state `ScreeningPage.save_screening` reads: text fields,
whether the date-of-birth widget still shows its blank sentinel
(`minimumDate`), the displayed age (`p_age.value()`, 0–120), the combo-box
texts, the duration spin box, the HbA1c spin box (one decimal, so its value
is an exact number of tenths, 40–150 for the 4.0–15.0 range), the
previous-treatment checkbox, and the analysis labels. -/
structure ScreeningForm where
  pid : String
  pname : String
  dobIsMin : Bool
  dobStr : String
  age : Nat
  sex : String
  contact : String
  eye : String
  diabetesType : String
  duration : Nat
  hba1cTenths : Nat
  prevTreatment : Bool
  notes : String
  resultText : String
  confText : String
deriving DecidableEq, Repr

/-- `f"{self.hba1c.value():.1f}%"` for a value of `t` tenths. -/
def formatHba1c (t : Nat) : String :=
  toString (t / 10) ++ "." ++ toString (t % 10) ++ "%"

/-- `ScreeningPage.save_screening`: `None` models the early return on an
empty (stripped) name; otherwise the `patient_data` list handed to
`patient_records_page.add_patient_record`. -/
def save_screening (f : ScreeningForm) : Option Rec :=
  if pyStrip f.pname = "" then none
  else some
    [.vStr f.pid,
     .vStr (pyStrip f.pname),
     .vStr (if f.dobIsMin then "" else f.dobStr),
     (if f.age > 0 then .vInt (f.age : Int) else .vStr ""),
     .vStr f.sex,
     .vStr (pyStrip f.contact),
     .vStr f.eye,
     .vStr (if f.diabetesType ≠ "Select" then f.diabetesType else ""),
     .vInt (f.duration : Int),
     .vStr (formatHba1c f.hba1cTenths),
     .vStr (if f.prevTreatment then "Yes" else "No"),
     .vStr (pyStrip f.notes),
     .vStr f.resultText,
     .vStr f.confText]

/-- A string of the shape `<digits>.<digit>%`: a number with exactly one
decimal followed by a percent sign. -/
def isOneDecimalPercent (s : String) : Bool :=
  match s.toList.reverse with
  | p :: d :: dot :: rest =>
      p = '%' && d.isDigit && dot = '.' && !rest.isEmpty && rest.all Char.isDigit
  | _ => false

end ScreeningModel

/-- C10: every record the screening workflow hands to the store is
normalised: field 7 (`diabetes_type`) is never the UI sentinel `Select` (it
becomes the empty string), field 3 (`age`) is the empty string exactly when
the displayed age is 0 (the date of birth plays no role in this), field 10
(`prev_treatment`) is exactly `Yes` or `No`, and field 9 (`hba1c`) is a
number with one decimal followed by `%` (the spin box holds 4.0–15.0, i.e.
40–150 tenths). -/
theorem c10_normalized (f : ScreeningForm) (r : Rec)
    (hsave : save_screening f = some r)
    (hlo : 40 ≤ f.hba1cTenths) (hhi : f.hba1cTenths ≤ 150) :
    r[7]? ≠ some (Val.vStr "Select")
    ∧ (f.diabetesType = "Select" → r[7]? = some (Val.vStr ""))
    ∧ (r[3]? = some (Val.vStr "") ↔ f.age = 0)
    ∧ (r[10]? = some (Val.vStr "Yes") ∨ r[10]? = some (Val.vStr "No"))
    ∧ ∃ s, r[9]? = some (Val.vStr s) ∧ isOneDecimalPercent s = true := by
  unfold save_screening at hsave
  by_cases hname : pyStrip f.pname = ""
  · rw [if_pos hname] at hsave
    exact absurd hsave (by simp)
  · rw [if_neg hname] at hsave
    have hr := (Option.some_inj.mp hsave).symm
    subst hr
    refine ⟨?_, ?_, ?_, ?_, ?_⟩
    · show some (Val.vStr (if f.diabetesType ≠ "Select" then f.diabetesType
          else "")) ≠ some (Val.vStr "Select")
      by_cases hd : f.diabetesType = "Select"
      · rw [if_neg (by simp [hd])]
        simp
      · rw [if_pos hd]
        simp [hd]
    · intro hd
      show some (Val.vStr (if f.diabetesType ≠ "Select" then f.diabetesType
          else "")) = some (Val.vStr "")
      rw [if_neg (by simp [hd])]
    · show some (if f.age > 0 then Val.vInt (f.age : Int) else Val.vStr "")
          = some (Val.vStr "") ↔ f.age = 0
      by_cases ha : f.age > 0
      · rw [if_pos ha]
        constructor
        · intro hx
          simp at hx
        · intro hx
          omega
      · rw [if_neg ha]
        constructor
        · intro _
          omega
        · intro _
          rfl
    · by_cases hp : f.prevTreatment
      · refine Or.inl ?_
        show some (Val.vStr (if f.prevTreatment then "Yes" else "No"))
            = some (Val.vStr "Yes")
        rw [if_pos hp]
      · refine Or.inr ?_
        show some (Val.vStr (if f.prevTreatment then "Yes" else "No"))
            = some (Val.vStr "No")
        rw [if_neg hp]
    · refine ⟨formatHba1c f.hba1cTenths, rfl, ?_⟩
      have key : ∀ t : Nat, t < 151 → 40 ≤ t →
          isOneDecimalPercent (formatHba1c t) = true := by decide
      exact key f.hba1cTenths (by omega) hlo

/-- The widget state of a completed demo screening (sentinel `Select` left in
the diabetes-type combo box, HbA1c 7.5 %). -/
def demoForm : ScreeningForm :=
  { pid := "ES-20250101-0001", pname := " Jane Doe ", dobIsMin := false,
    dobStr := "1980-05-14", age := 45, sex := "Female", contact := "0917",
    eye := "Both Eyes", diabetesType := "Select", duration := 10,
    hba1cTenths := 75, prevTreatment := false, notes := "",
    resultText := "No DR Detected", confText := "Confidence: 93.8%" }

/-- The record `save_screening` builds from `demoForm`. -/
def demoRec : Rec :=
  [.vStr "ES-20250101-0001", .vStr "Jane Doe", .vStr "1980-05-14", .vInt 45,
   .vStr "Female", .vStr "0917", .vStr "Both Eyes", .vStr "", .vInt 10,
   .vStr "7.5%", .vStr "No", .vStr "", .vStr "No DR Detected",
   .vStr "Confidence: 93.8%"]

/-- Witness for `c10_normalized` at the demo form. -/
theorem c10_normalized_witness :
    save_screening demoForm = some demoRec
    ∧ (demoRec[7]? ≠ some (Val.vStr "Select")
       ∧ (demoForm.diabetesType = "Select" → demoRec[7]? = some (Val.vStr ""))
       ∧ (demoRec[3]? = some (Val.vStr "") ↔ demoForm.age = 0)
       ∧ (demoRec[10]? = some (Val.vStr "Yes")
          ∨ demoRec[10]? = some (Val.vStr "No"))
       ∧ ∃ s, demoRec[9]? = some (Val.vStr s)
          ∧ isOneDecimalPercent s = true) :=
  ⟨by decide,
   c10_normalized demoForm demoRec (by decide) (by decide) (by decide)⟩
